import Mathlib

/-!
Verification of the image compositing and encoding pipeline of
jackyes/GoQrCodeGen (src/main.go): `generateQRCode`,
`overlayImageOnQRCode`, `overlayImageOnQRCodeWithOpacity` and
`applyOpacity`.

Embedding conventions.

* A Go `image.Image` is a rectangular pixel grid observed through
  `Color.RGBA()`, which yields alpha-premultiplied 16-bit channels
  (each in `0 .. 0xffff`).  `Pixel` is that quadruple and `Img` an
  image with zero-based bounds, matching the rasters the handlers
  pass in (QR rasters and decoded overlays have `Bounds().Min = (0,0)`).
* The `*image.RGBA` canvas allocated by `image.NewRGBA` stores 8-bit
  premultiplied channels; `Pix8`/`Img8` model it, `Img8.toImg` is its
  `RGBA()` view (`v * 0x101`).
* `draw.Draw` with `draw.Src` into an RGBA canvas stores
  `uint8(c >> 8)` per channel (`rgbaSrc`); with `draw.Over` it blends
  `uint8(((d * ((0xffff - sa) * 0x101)) / 0xffff + sc) >> 8)`
  (`rgbaOver`), which is the Go standard library formula for both the
  generic and the fast paths.  `uint8`/`uint16`/`uint32` conversions
  are `% 2^8 / % 2^16 / % 2^32` truncations.
* Go `float64` values (`overlayPercent`, `overlayOpacity`) are
  embedded as exact rationals; the concrete inputs used in witnesses
  and counterexamples are all exactly representable in `float64`, so
  the rational arithmetic coincides with the Go computation there.
* The external resize library (`nfnt/resize`) and QR encoder
  (`skip2/go-qrcode`) are not part of this repository; the parts of
  their behaviour this code depends on are modelled from the spec
  (definitions marked `Modelled from the spec`), and the actual
  resampling kernel is an explicit parameter `resample`, so theorems
  hold for every resampling kernel.
-/

/-- Alpha-premultiplied 16-bit color, the quadruple returned by Go's
`Color.RGBA()` (each channel intended in `0 .. 0xffff`). -/
structure Pixel where
  r : ℕ
  g : ℕ
  b : ℕ
  a : ℕ
deriving DecidableEq, Repr

/-- One stored pixel of a Go `*image.RGBA`: 8-bit premultiplied channels. -/
structure Pix8 where
  r : ℕ
  g : ℕ
  b : ℕ
  a : ℕ
deriving DecidableEq, Repr

/-- A Go `image.Image` with zero-based bounds, observed through `RGBA()`. -/
structure Img where
  width : ℕ
  height : ℕ
  pix : ℕ → ℕ → Pixel

/-- A Go `*image.RGBA` with zero-based bounds (8-bit stored channels). -/
structure Img8 where
  width : ℕ
  height : ℕ
  pix : ℕ → ℕ → Pix8

/-- The `RGBA()` view of a stored 8-bit RGBA image: each channel `v`
reads back as `v * 0x101`. -/
def Img8.toImg (img : Img8) : Img :=
  { width := img.width, height := img.height,
    pix := fun x y =>
      { r := (img.pix x y).r * 257, g := (img.pix x y).g * 257,
        b := (img.pix x y).b * 257, a := (img.pix x y).a * 257 } }

/-- Go conversion of a `float64` to an integer type: truncation toward
zero (the fractional part is discarded), i.e. `Int.tdiv` of the reduced
numerator by the denominator. -/
def truncQ (q : ℚ) : ℤ :=
  Int.tdiv q.num q.den

/-- Go `uint(x)` applied to an `int`: two's-complement wraparound
modulo `2^64`. -/
def goUint64 (x : ℤ) : ℕ :=
  (x % 18446744073709551616).toNat

/-- Go `uint32(float64 expression)`: truncation toward zero, then
wraparound modulo `2^32` (in-range conversions, the only ones the
theorems rely on, are plain truncation). -/
def goUint32Q (q : ℚ) : ℕ :=
  ((truncQ q) % 4294967296).toNat

/-- `draw.Src` into an `*image.RGBA` canvas: each stored channel is
`uint8(c >> 8)` of the source's `RGBA()` channel. -/
def rgbaSrc (s : Pixel) : Pix8 :=
  { r := s.r / 256 % 256, g := s.g / 256 % 256,
    b := s.b / 256 % 256, a := s.a / 256 % 256 }

/-- `draw.Over` of one source pixel onto one stored RGBA pixel, the Go
`image/draw` formula with `m = 0xffff`:
`uint8(((d * ((m - sa) * 0x101)) / m + sc) >> 8)` per channel. -/
def rgbaOver (d : Pix8) (s : Pixel) : Pix8 :=
  { r := (d.r * ((65535 - s.a) * 257) / 65535 + s.r) / 256 % 256,
    g := (d.g * ((65535 - s.a) * 257) / 65535 + s.g) / 256 % 256,
    b := (d.b * ((65535 - s.a) * 257) / 65535 + s.b) / 256 % 256,
    a := (d.a * ((65535 - s.a) * 257) / 65535 + s.a) / 256 % 256 }

/-- A resampling kernel: given target width, height and the source
image, produces the pixels of the resized image.  The actual
Lanczos3 kernel of the external resize library is kept abstract; every
theorem below holds for an arbitrary kernel. -/
def Resample : Type :=
  ℕ → ℕ → Img → ℕ → ℕ → Pixel

/-- Modelled from the spec: the dimension selection of the external
resize library's thumbnail operation (`resize.Thumbnail`, not part of
this repository).  Per the spec it resizes the image to fit inside the
`maxW × maxH` bounding box preserving the aspect ratio — the longer
relative dimension touches the box edge, the other is scaled
proportionally (with integer truncation) — and an image already within
the box is returned unchanged (the fraction bounds, it does not
force). -/
def thumbnailDims (maxW maxH w h : ℕ) : ℕ × ℕ :=
  if w ≤ maxW ∧ h ≤ maxH then (w, h)
  else if maxW * h ≤ maxH * w then (maxW, h * maxW / w)
  else (w * maxH / h, maxH)

/-- Modelled from the spec: `resize.Thumbnail(maxW, maxH, img, Lanczos3)`
of the external resize library — return `img` unchanged when it already
fits inside the box, otherwise resample it at the aspect-preserving
dimensions `thumbnailDims`. -/
def thumbnail (resample : Resample) (maxW maxH : ℕ) (img : Img) : Img :=
  if img.width ≤ maxW ∧ img.height ≤ maxH then img
  else
    { width := (thumbnailDims maxW maxH img.width img.height).1,
      height := (thumbnailDims maxW maxH img.width img.height).2,
      pix := resample (thumbnailDims maxW maxH img.width img.height).1
        (thumbnailDims maxW maxH img.width img.height).2 img }

/-- The two sequential draws of `overlayImageOnQRCode` (src/main.go):
`draw.Draw(m, qrBounds, qrCode, Point{}, draw.Src)` followed by
`draw.Draw(m, overlay.Bounds().Add(offset), overlay, Point{}, draw.Over)`
on the freshly allocated canvas `m := image.NewRGBA(qrBounds)`.
A canvas pixel inside the placed overlay rectangle is the Over-blend of
the copied base with the overlay pixel read at `p - offset`; every
other canvas pixel is the Src-copy of the base pixel. -/
def drawComposite (base : Img) (ov : Img) (off : ℤ × ℤ) : Img8 :=
  { width := base.width, height := base.height,
    pix := fun x y =>
      if off.1 ≤ (x : ℤ) ∧ (x : ℤ) < off.1 + ov.width ∧
         off.2 ≤ (y : ℤ) ∧ (y : ℤ) < off.2 + ov.height then
        rgbaOver (rgbaSrc (base.pix x y))
          (ov.pix ((x : ℤ) - off.1).toNat ((y : ℤ) - off.2).toNat)
      else rgbaSrc (base.pix x y) }

/-- `overlayMaxWidth := int(float64(qrWidth) * overlayPercent)` of
src/main.go, followed by the `uint(...)` conversion at the
`resize.Thumbnail` call site. -/
def overlayMaxW (qrCode : Img) (overlayPercent : ℚ) : ℕ :=
  goUint64 (truncQ ((qrCode.width : ℚ) * overlayPercent))

/-- `overlayMaxHeight := int(float64(qrHeight) * overlayPercent)` of
src/main.go, followed by the `uint(...)` conversion. -/
def overlayMaxH (qrCode : Img) (overlayPercent : ℚ) : ℕ :=
  goUint64 (truncQ ((qrCode.height : ℚ) * overlayPercent))

/-- The resized overlay
`resize.Thumbnail(uint(overlayMaxWidth), uint(overlayMaxHeight), overlay, resize.Lanczos3)`
shared by `overlayImageOnQRCode` and `overlayImageOnQRCodeWithOpacity`. -/
def overlayResized (resample : Resample) (qrCode overlay : Img)
    (overlayPercent : ℚ) : Img :=
  thumbnail resample (overlayMaxW qrCode overlayPercent)
    (overlayMaxH qrCode overlayPercent) overlay

/-- `offset := image.Pt((qrWidth-overlay.Bounds().Dx())/2, (qrHeight-overlay.Bounds().Dy())/2)`
of src/main.go; Go `/` on `int` truncates toward zero (`Int.div`). -/
def overlayOffset (resample : Resample) (qrCode overlay : Img)
    (overlayPercent : ℚ) : ℤ × ℤ :=
  (Int.tdiv ((qrCode.width : ℤ) -
      (overlayResized resample qrCode overlay overlayPercent).width) 2,
   Int.tdiv ((qrCode.height : ℤ) -
      (overlayResized resample qrCode overlay overlayPercent).height) 2)

/-- `overlayImageOnQRCode` (src/main.go lines 958-986): resize the
overlay to the bounded box, center it, copy the QR raster onto a fresh
RGBA canvas with `draw.Src`, blend the overlay with `draw.Over`, and
return the canvas together with the always-`nil` error. -/
def overlayImageOnQRCode (resample : Resample) (qrCode overlay : Img)
    (overlayPercent : ℚ) : Img8 × Option String :=
  (drawComposite qrCode (overlayResized resample qrCode overlay overlayPercent)
    (overlayOffset resample qrCode overlay overlayPercent), none)

/-- `applyOpacity` (src/main.go lines 1887-1916): for every pixel take
`r, g, b, a := originalColor.RGBA()`, scale only the alpha by
`a = uint32(float64(a) * opacity)`, build
`color.RGBA64{uint16(r), uint16(g), uint16(b), uint16(a)}` and store it
into a fresh `*image.RGBA` (whose `Set` keeps `uint8(channel >> 8)`). -/
def applyOpacity (img : Img) (opacity : ℚ) : Img8 :=
  { width := img.width, height := img.height,
    pix := fun x y =>
      { r := (img.pix x y).r % 65536 / 256,
        g := (img.pix x y).g % 65536 / 256,
        b := (img.pix x y).b % 65536 / 256,
        a := goUint32Q (((img.pix x y).a : ℚ) * opacity) % 65536 / 256 } }

/-- `overlayImageOnQRCodeWithOpacity` (src/main.go lines 1850-1884):
identical to `overlayImageOnQRCode` except that the resized overlay is
passed through `applyOpacity` before the `draw.Over` blend (the offset
is computed from the resized bounds, which `applyOpacity` preserves). -/
def overlayImageOnQRCodeWithOpacity (resample : Resample)
    (qrCode overlay : Img) (overlayPercent overlayOpacity : ℚ) :
    Img8 × Option String :=
  (drawComposite qrCode
    ((applyOpacity (overlayResized resample qrCode overlay overlayPercent)
        overlayOpacity).toImg)
    (overlayOffset resample qrCode overlay overlayPercent), none)

/-- The error message used by the modelled QR encoder when the payload
exceeds the symbol capacity. -/
def errEncoding : String :=
  "EncodingError"

/-- Modelled from the spec: the maximum payload length (characters, spec
section 3) that the external QR encoder accepts at the fixed High
error-correction level — the version-40 byte-mode capacity of the QR
standard the spec references. -/
def qrMaxCapacityHigh : ℕ :=
  1273

/-- Modelled from the spec: `qrcode.New(data, qrcode.High)` of the
external go-qrcode library (not part of this repository) — deterministic,
fails exactly when the payload cannot be represented at the fixed High
error-correction level, i.e. exceeds the symbol capacity; on success
holds the encoded module matrix (kept abstract as `modules data`). -/
def qrcodeNew (modules : String → ℕ → ℕ → Pixel) (data : String) :
    Except String (ℕ → ℕ → Pixel) :=
  if data.length ≤ qrMaxCapacityHigh then Except.ok (modules data)
  else Except.error errEncoding

/-- Modelled from the spec: `qr.Image(size)` of the external go-qrcode
library — renders the module matrix as a square raster of exactly
`size × size` pixels. -/
def qrImage (modulePix : ℕ → ℕ → Pixel) (size : ℕ) : Img :=
  { width := size, height := size, pix := modulePix }

/-- `generateQRCode` (src/main.go lines 912-921): create the QR code at
the High error-correction level, propagating the encoder's error, and
render it at the requested size. -/
def generateQRCode (modules : String → ℕ → ℕ → Pixel) (data : String)
    (size : ℕ) : Except String Img :=
  match qrcodeNew modules data with
  | Except.error e => Except.error e
  | Except.ok qr => Except.ok (qrImage qr size)

/-- A `Pixel` whose channels are valid 16-bit values that are exact
8-bit colors (multiples of `0x101`), i.e. the `RGBA()` view of a stored
8-bit premultiplied RGBA pixel. -/
abbrev PixAligned (p : Pixel) : Prop :=
  p.r < 65536 ∧ p.g < 65536 ∧ p.b < 65536 ∧ p.a < 65536 ∧
  p.r % 257 = 0 ∧ p.g % 257 = 0 ∧ p.b % 257 = 0 ∧ p.a % 257 = 0

example : thumbnailDims 256 256 2000 1000 = (256, 128) := by decide

unseal Rat.mul in
example : overlayMaxW { width := 1024, height := 1024, pix := fun _ _ => ⟨0,0,0,0⟩ } (mkRat 1 4) = 256 := by decide

example :
    rgbaOver { r := 1, g := 1, b := 1, a := 255 } { r := 20156, g := 20156, b := 20156, a := 25700 } =
      { r := 79, g := 79, b := 79, a := 255 } := by decide

unseal Rat.mul in
example :
    (overlayImageOnQRCode (fun _ _ _ _ _ => ⟨0, 0, 0, 0⟩)
        { width := 1, height := 1, pix := fun _ _ => ⟨257, 257, 257, 65535⟩ }
        { width := 1, height := 1, pix := fun _ _ => ⟨20156, 20156, 20156, 25700⟩ }
        1).1.pix 0 0 = { r := 79, g := 79, b := 79, a := 255 } := by decide

unseal Rat.mul in
example :
    (overlayImageOnQRCodeWithOpacity (fun _ _ _ _ _ => ⟨0, 0, 0, 0⟩)
        { width := 1, height := 1, pix := fun _ _ => ⟨257, 257, 257, 65535⟩ }
        { width := 1, height := 1, pix := fun _ _ => ⟨20156, 20156, 20156, 25700⟩ }
        1 1).1.pix 0 0 = { r := 78, g := 78, b := 78, a := 255 } := by decide

/-! Auxiliary lemmas about the numeric conversions. -/

/-- Truncation toward zero agrees with the floor on nonnegative
rationals. -/
theorem truncQ_eq_floor {q : ℚ} (h : 0 ≤ q) : truncQ q = ⌊q⌋ := by
  rw [Rat.floor_def, truncQ]
  exact Int.tdiv_eq_ediv (by exact_mod_cast Rat.num_nonneg.mpr h) (by positivity)

/-- The `uint` conversion is the identity on in-range values. -/
theorem goUint64_eq {x : ℤ} (h0 : 0 ≤ x) (h1 : x < 18446744073709551616) :
    (goUint64 x : ℤ) = x := by
  unfold goUint64
  rw [Int.emod_eq_of_lt h0 h1, Int.toNat_of_nonneg h0]

/-- For a fraction in `[0, 1]` the computed bounding-box edge
`uint(int(float64(n) * f))` is exactly `⌊n * f⌋`. -/
theorem goBoxDim_eq (n : ℕ) (f : ℚ) (h0 : 0 ≤ f) (h1 : f ≤ 1)
    (hn : (n : ℤ) < 18446744073709551616) :
    (goUint64 (truncQ ((n : ℚ) * f)) : ℤ) = ⌊(n : ℚ) * f⌋ := by
  have hq : 0 ≤ (n : ℚ) * f := mul_nonneg (by positivity) h0
  have hfl0 : 0 ≤ ⌊(n : ℚ) * f⌋ := Int.floor_nonneg.mpr hq
  have hub : ⌊(n : ℚ) * f⌋ ≤ (n : ℤ) := by
    have hle : (n : ℚ) * f ≤ (n : ℚ) := mul_le_of_le_one_right (by positivity) h1
    have h2 := Int.floor_le_floor hle
    rwa [Int.floor_natCast] at h2
  rw [truncQ_eq_floor hq]
  exact goUint64_eq hfl0 (lt_of_le_of_lt hub hn)

/-- `overlayMaxW` for a fraction in `[0, 1]` is `⌊qrWidth * f⌋`. -/
theorem overlayMaxW_eq (qrCode : Img) (f : ℚ) (h0 : 0 ≤ f) (h1 : f ≤ 1)
    (hn : (qrCode.width : ℤ) < 18446744073709551616) :
    (overlayMaxW qrCode f : ℤ) = ⌊(qrCode.width : ℚ) * f⌋ :=
  goBoxDim_eq qrCode.width f h0 h1 hn

/-- `overlayMaxH` for a fraction in `[0, 1]` is `⌊qrHeight * f⌋`. -/
theorem overlayMaxH_eq (qrCode : Img) (f : ℚ) (h0 : 0 ≤ f) (h1 : f ≤ 1)
    (hn : (qrCode.height : ℤ) < 18446744073709551616) :
    (overlayMaxH qrCode f : ℤ) = ⌊(qrCode.height : ℚ) * f⌋ :=
  goBoxDim_eq qrCode.height f h0 h1 hn

/-! Auxiliary lemmas about the modelled thumbnail operation. -/

/-- One direction of the aspect tolerance: the scaled-down edge is
within one pixel below the exact proportion. -/
theorem divAspectLt1 (w h mW : ℕ) (hw : 0 < w) :
    mW * h < (h * mW / w + 1) * w := by
  have h1 := Nat.div_add_mod (h * mW) w
  have h2 : (h * mW) % w < w := Nat.mod_lt _ hw
  calc mW * h = h * mW := by ring
  _ < (h * mW / w + 1) * w := by
        rw [Nat.add_mul, Nat.one_mul]
        have h3 : w * (h * mW / w) = h * mW / w * w := by ring
        omega

/-- The other direction of the aspect tolerance. -/
theorem divAspectLt2 (w h mW : ℕ) (hh : 0 < h) :
    h * mW / w * w < (mW + 1) * h := by
  have h4 : h * mW / w * w ≤ h * mW := Nat.div_mul_le_self _ _
  calc h * mW / w * w ≤ h * mW := h4
  _ = mW * h := by ring
  _ < (mW + 1) * h := by
        rw [Nat.add_mul, Nat.one_mul]
        omega

/-- The thumbnail never exceeds the bounding box. -/
theorem thumbnail_le (resample : Resample) (mW mH : ℕ) (img : Img)
    (hw : 0 < img.width) (hh : 0 < img.height) :
    (thumbnail resample mW mH img).width ≤ mW ∧
    (thumbnail resample mW mH img).height ≤ mH := by
  unfold thumbnail thumbnailDims
  split_ifs with hfit hcond
  · exact hfit
  · refine ⟨le_refl mW, ?_⟩
    apply Nat.div_le_of_le_mul
    calc img.height * mW = mW * img.height := by ring
    _ ≤ mH * img.width := hcond
    _ = img.width * mH := by ring
  · refine ⟨?_, le_refl mH⟩
    apply Nat.div_le_of_le_mul
    have hc : mH * img.width ≤ mW * img.height := le_of_not_le hcond
    calc img.width * mH = mH * img.width := by ring
    _ ≤ mW * img.height := hc
    _ = img.height * mW := by ring

/-- The thumbnail's dimensions stay within one pixel of the source's
aspect proportion (cross-multiplied form of the rounding tolerance). -/
theorem thumbnail_aspect (resample : Resample) (mW mH : ℕ) (img : Img)
    (hw : 0 < img.width) (hh : 0 < img.height) :
    (thumbnail resample mW mH img).width * img.height <
      ((thumbnail resample mW mH img).height + 1) * img.width ∧
    (thumbnail resample mW mH img).height * img.width <
      ((thumbnail resample mW mH img).width + 1) * img.height := by
  unfold thumbnail thumbnailDims
  split_ifs with hfit hcond
  · constructor <;> nlinarith
  · constructor
    · exact divAspectLt1 img.width img.height mW hw
    · exact divAspectLt2 img.width img.height mW hh
  · constructor
    · exact divAspectLt2 img.height img.width mH hw
    · exact divAspectLt1 img.height img.width mH hh

/-- A degenerate bounding box (either edge zero) makes the thumbnail
dimensions collapse to `0 × 0`. -/
theorem thumbnailDims_degenerate (mW mH w h : ℕ) (hw : 0 < w) (hh : 0 < h)
    (hd : mW = 0 ∨ mH = 0) : thumbnailDims mW mH w h = (0, 0) := by
  unfold thumbnailDims
  rcases hd with h0 | h0
  · subst h0
    rw [if_neg (by omega), if_pos (by simp : 0 * h ≤ mH * w)]
    simp
  · subst h0
    rw [if_neg (by omega)]
    by_cases hc : mW * h ≤ 0 * w
    · rw [if_pos hc]
      have h00 : mW * h = 0 := Nat.le_antisymm (by simpa using hc) (Nat.zero_le _)
      rcases Nat.mul_eq_zero.mp h00 with h2 | h2
      · subst h2
        simp
      · omega
    · rw [if_neg hc]
      simp

/-- Reading the composite canvas outside the placed overlay rectangle
gives the Src-copied base pixel. -/
theorem drawComposite_outside (base ov : Img) (off : ℤ × ℤ) (x y : ℕ)
    (h : ¬ (off.1 ≤ (x : ℤ) ∧ (x : ℤ) < off.1 + ov.width ∧
      off.2 ≤ (y : ℤ) ∧ (y : ℤ) < off.2 + ov.height)) :
    (drawComposite base ov off).pix x y = rgbaSrc (base.pix x y) := by
  simp only [drawComposite]
  rw [if_neg h]

/-- Reading the composite canvas inside the placed overlay rectangle
gives the Over-blend of the copied base with the overlay pixel. -/
theorem drawComposite_inside (base ov : Img) (off : ℤ × ℤ) (x y : ℕ)
    (h : off.1 ≤ (x : ℤ) ∧ (x : ℤ) < off.1 + ov.width ∧
      off.2 ≤ (y : ℤ) ∧ (y : ℤ) < off.2 + ov.height) :
    (drawComposite base ov off).pix x y =
      rgbaOver (rgbaSrc (base.pix x y))
        (ov.pix ((x : ℤ) - off.1).toNat ((y : ℤ) - off.2).toNat) := by
  simp only [drawComposite]
  rw [if_pos h]

/-! C1, C7, C8 and C10. -/

/-- C1: for every base raster, every overlay raster, and every fraction
in `(0, 1]`, `overlayImageOnQRCode` returns a raster with the base's
width and height, and a `nil` error. -/
theorem c1_composite_dims (resample : Resample) (qrCode overlay : Img)
    (f : ℚ) (hf0 : 0 < f) (hf1 : f ≤ 1) :
    (overlayImageOnQRCode resample qrCode overlay f).1.width = qrCode.width ∧
    (overlayImageOnQRCode resample qrCode overlay f).1.height = qrCode.height ∧
    (overlayImageOnQRCode resample qrCode overlay f).2 = none :=
  ⟨rfl, rfl, rfl⟩

/-- Witness for C1 at a concrete 8 × 8 base, 2 × 2 overlay and
fraction 1. -/
theorem c1_composite_dims_witness :
    (0 : ℚ) < 1 ∧ (1 : ℚ) ≤ 1 ∧
    ((overlayImageOnQRCode (fun _ _ _ _ _ => ⟨0, 0, 0, 0⟩)
        { width := 8, height := 8, pix := fun _ _ => ⟨0, 0, 0, 65535⟩ }
        { width := 2, height := 2, pix := fun _ _ => ⟨65535, 65535, 65535, 65535⟩ }
        1).1.width = 8 ∧
      (overlayImageOnQRCode (fun _ _ _ _ _ => ⟨0, 0, 0, 0⟩)
        { width := 8, height := 8, pix := fun _ _ => ⟨0, 0, 0, 65535⟩ }
        { width := 2, height := 2, pix := fun _ _ => ⟨65535, 65535, 65535, 65535⟩ }
        1).1.height = 8 ∧
      (overlayImageOnQRCode (fun _ _ _ _ _ => ⟨0, 0, 0, 0⟩)
        { width := 8, height := 8, pix := fun _ _ => ⟨0, 0, 0, 65535⟩ }
        { width := 2, height := 2, pix := fun _ _ => ⟨65535, 65535, 65535, 65535⟩ }
        1).2 = none) :=
  ⟨by decide, by decide,
    c1_composite_dims (fun _ _ _ _ _ => ⟨0, 0, 0, 0⟩)
      { width := 8, height := 8, pix := fun _ _ => ⟨0, 0, 0, 65535⟩ }
      { width := 2, height := 2, pix := fun _ _ => ⟨65535, 65535, 65535, 65535⟩ }
      1 (by decide) (by decide)⟩

/-- C10: for every fraction and opacity whatsoever — negative, zero or
above one included — both overlay functions return a raster with the
base raster's dimensions and a `nil` error; the `int`-to-`uint`
conversion of a negative or oversized bounding box never changes the
output dimensions or produces an error. -/
theorem c10_total_no_failure (resample : Resample) (qrCode overlay : Img)
    (f o : ℚ) :
    (overlayImageOnQRCode resample qrCode overlay f).1.width = qrCode.width ∧
    (overlayImageOnQRCode resample qrCode overlay f).1.height = qrCode.height ∧
    (overlayImageOnQRCode resample qrCode overlay f).2 = none ∧
    (overlayImageOnQRCodeWithOpacity resample qrCode overlay f o).1.width = qrCode.width ∧
    (overlayImageOnQRCodeWithOpacity resample qrCode overlay f o).1.height = qrCode.height ∧
    (overlayImageOnQRCodeWithOpacity resample qrCode overlay f o).2 = none :=
  ⟨rfl, rfl, rfl, rfl, rfl, rfl⟩

/-- A sample in-capacity payload. -/
def samplePayload : String :=
  "https://example.com"

/-- A payload exceeding the modelled High-level capacity. -/
def oversizedPayload : String :=
  String.mk (List.replicate 1274 'a')

/-- C7: for every rendering of the module matrix, every valid size and
every payload within the High-level capacity, `generateQRCode` returns a
square raster of exactly that size; for every payload exceeding the
capacity it fails with the encoding error and returns no raster. -/
theorem c7_generate_qrcode (modules : String → ℕ → ℕ → Pixel) (size : ℕ)
    (data over : String)
    (hsize : size = 128 ∨ size = 256 ∨ size = 512 ∨ size = 1024)
    (hdata : data.length ≤ qrMaxCapacityHigh)
    (hover : qrMaxCapacityHigh < over.length) :
    (∃ img : Img, generateQRCode modules data size = Except.ok img ∧
      img.width = size ∧ img.height = size) ∧
    generateQRCode modules over size = Except.error errEncoding := by
  constructor
  · refine ⟨qrImage (modules data) size, ?_, rfl, rfl⟩
    unfold generateQRCode qrcodeNew
    rw [if_pos hdata]
  · unfold generateQRCode qrcodeNew
    rw [if_neg (by omega)]

/-- Witness for C7 at size 256, a 19-character payload and a
1274-character payload. -/
theorem c7_generate_qrcode_witness :
    ((256 : ℕ) = 128 ∨ (256 : ℕ) = 256 ∨ (256 : ℕ) = 512 ∨ (256 : ℕ) = 1024) ∧
    samplePayload.length ≤ qrMaxCapacityHigh ∧
    qrMaxCapacityHigh < oversizedPayload.length ∧
    ((∃ img : Img, generateQRCode (fun _ _ _ => ⟨0, 0, 0, 0⟩) samplePayload 256 =
        Except.ok img ∧ img.width = 256 ∧ img.height = 256) ∧
      generateQRCode (fun _ _ _ => ⟨0, 0, 0, 0⟩) oversizedPayload 256 =
        Except.error errEncoding) := by
  have hover : qrMaxCapacityHigh < oversizedPayload.length := by
    have h1 : oversizedPayload.length = 1274 := by
      show (String.mk (List.replicate 1274 'a')).length = 1274
      rw [String.length, List.length_replicate]
    rw [h1]
    decide
  exact ⟨by decide, by decide, hover,
    c7_generate_qrcode (fun _ _ _ => ⟨0, 0, 0, 0⟩) 256 samplePayload
      oversizedPayload (by decide) (by decide) hover⟩

/-- C8: when the computed bounding box has a zero edge, the resize
degrades to a `0 × 0` overlay, the overlay is omitted entirely — every
output pixel is the Src-copied base pixel — the output keeps the base's
dimensions, and no error is raised. -/
theorem c8_degenerate_box (resample : Resample) (qrCode overlay : Img)
    (f : ℚ) (how : 0 < overlay.width) (hoh : 0 < overlay.height)
    (hdeg : overlayMaxW qrCode f = 0 ∨ overlayMaxH qrCode f = 0) :
    (overlayResized resample qrCode overlay f).width = 0 ∧
    (overlayResized resample qrCode overlay f).height = 0 ∧
    (overlayImageOnQRCode resample qrCode overlay f).2 = none ∧
    (overlayImageOnQRCode resample qrCode overlay f).1.width = qrCode.width ∧
    (overlayImageOnQRCode resample qrCode overlay f).1.height = qrCode.height ∧
    ∀ x y : ℕ, (overlayImageOnQRCode resample qrCode overlay f).1.pix x y =
      rgbaSrc (qrCode.pix x y) := by
  have hfit : ¬ (overlay.width ≤ overlayMaxW qrCode f ∧
      overlay.height ≤ overlayMaxH qrCode f) := by
    rcases hdeg with h0 | h0 <;> rw [h0] <;> omega
  have hdims := thumbnailDims_degenerate (overlayMaxW qrCode f)
    (overlayMaxH qrCode f) overlay.width overlay.height how hoh hdeg
  have hw0 : (overlayResized resample qrCode overlay f).width = 0 := by
    unfold overlayResized thumbnail
    rw [if_neg hfit, hdims]
  have hh0 : (overlayResized resample qrCode overlay f).height = 0 := by
    unfold overlayResized thumbnail
    rw [if_neg hfit, hdims]
  refine ⟨hw0, hh0, rfl, rfl, rfl, ?_⟩
  intro x y
  apply drawComposite_outside
  rw [hw0]
  intro hC
  omega

unseal Rat.mul in
/-- Witness for C8: a 1 × 1 base with fraction 1/2 gives a zero
bounding box; the 1 × 1 overlay is dropped and the output is the copied
base. -/
theorem c8_degenerate_box_witness :
    0 < ({ width := 1, height := 1, pix := fun _ _ => ⟨65535, 65535, 65535, 65535⟩ } : Img).width ∧
    (overlayMaxW { width := 1, height := 1, pix := fun _ _ => ⟨257, 514, 771, 65535⟩ } (mkRat 1 2) = 0 ∨
      overlayMaxH { width := 1, height := 1, pix := fun _ _ => ⟨257, 514, 771, 65535⟩ } (mkRat 1 2) = 0) ∧
    ((overlayResized (fun _ _ _ _ _ => ⟨0, 0, 0, 0⟩)
        { width := 1, height := 1, pix := fun _ _ => ⟨257, 514, 771, 65535⟩ }
        { width := 1, height := 1, pix := fun _ _ => ⟨65535, 65535, 65535, 65535⟩ }
        (mkRat 1 2)).width = 0 ∧
      (overlayResized (fun _ _ _ _ _ => ⟨0, 0, 0, 0⟩)
        { width := 1, height := 1, pix := fun _ _ => ⟨257, 514, 771, 65535⟩ }
        { width := 1, height := 1, pix := fun _ _ => ⟨65535, 65535, 65535, 65535⟩ }
        (mkRat 1 2)).height = 0 ∧
      (overlayImageOnQRCode (fun _ _ _ _ _ => ⟨0, 0, 0, 0⟩)
        { width := 1, height := 1, pix := fun _ _ => ⟨257, 514, 771, 65535⟩ }
        { width := 1, height := 1, pix := fun _ _ => ⟨65535, 65535, 65535, 65535⟩ }
        (mkRat 1 2)).2 = none ∧
      (overlayImageOnQRCode (fun _ _ _ _ _ => ⟨0, 0, 0, 0⟩)
        { width := 1, height := 1, pix := fun _ _ => ⟨257, 514, 771, 65535⟩ }
        { width := 1, height := 1, pix := fun _ _ => ⟨65535, 65535, 65535, 65535⟩ }
        (mkRat 1 2)).1.width = 1 ∧
      (overlayImageOnQRCode (fun _ _ _ _ _ => ⟨0, 0, 0, 0⟩)
        { width := 1, height := 1, pix := fun _ _ => ⟨257, 514, 771, 65535⟩ }
        { width := 1, height := 1, pix := fun _ _ => ⟨65535, 65535, 65535, 65535⟩ }
        (mkRat 1 2)).1.height = 1 ∧
      ∀ x y : ℕ, (overlayImageOnQRCode (fun _ _ _ _ _ => ⟨0, 0, 0, 0⟩)
        { width := 1, height := 1, pix := fun _ _ => ⟨257, 514, 771, 65535⟩ }
        { width := 1, height := 1, pix := fun _ _ => ⟨65535, 65535, 65535, 65535⟩ }
        (mkRat 1 2)).1.pix x y =
        rgbaSrc (({ width := 1, height := 1, pix := fun _ _ => ⟨257, 514, 771, 65535⟩ } : Img).pix x y)) :=
  ⟨by decide, by decide,
    c8_degenerate_box (fun _ _ _ _ _ => ⟨0, 0, 0, 0⟩)
      { width := 1, height := 1, pix := fun _ _ => ⟨257, 514, 771, 65535⟩ }
      { width := 1, height := 1, pix := fun _ _ => ⟨65535, 65535, 65535, 65535⟩ }
      (mkRat 1 2) (by decide) (by decide) (by decide)⟩

/-! C2 and C3. -/

/-- C2: for a fraction in `(0, 1]` the resized overlay fits in the
`⌊qrWidth * f⌋ × ⌊qrHeight * f⌋` bounding box, and its dimensions stay
within one pixel of the original overlay's aspect proportion
(cross-multiplied rounding tolerance). -/
theorem c2_resized_bounds (resample : Resample) (qrCode overlay : Img)
    (f : ℚ) (hf0 : 0 < f) (hf1 : f ≤ 1)
    (how : 0 < overlay.width) (hoh : 0 < overlay.height)
    (hqw : (qrCode.width : ℤ) < 18446744073709551616)
    (hqh : (qrCode.height : ℤ) < 18446744073709551616) :
    ((overlayResized resample qrCode overlay f).width : ℤ) ≤
      ⌊(qrCode.width : ℚ) * f⌋ ∧
    ((overlayResized resample qrCode overlay f).height : ℤ) ≤
      ⌊(qrCode.height : ℚ) * f⌋ ∧
    (overlayResized resample qrCode overlay f).width * overlay.height <
      ((overlayResized resample qrCode overlay f).height + 1) * overlay.width ∧
    (overlayResized resample qrCode overlay f).height * overlay.width <
      ((overlayResized resample qrCode overlay f).width + 1) * overlay.height := by
  obtain ⟨lW, lH⟩ := thumbnail_le resample (overlayMaxW qrCode f)
    (overlayMaxH qrCode f) overlay how hoh
  obtain ⟨a1, a2⟩ := thumbnail_aspect resample (overlayMaxW qrCode f)
    (overlayMaxH qrCode f) overlay how hoh
  refine ⟨?_, ?_, a1, a2⟩
  · rw [← overlayMaxW_eq qrCode f hf0.le hf1 hqw]
    exact_mod_cast lW
  · rw [← overlayMaxH_eq qrCode f hf0.le hf1 hqh]
    exact_mod_cast lH

unseal Rat.mul in
/-- Witness for C2: a 4 × 4 base at fraction 1/2 bounds an 8 × 8
overlay to 2 × 2. -/
theorem c2_resized_bounds_witness :
    0 < mkRat 1 2 ∧ mkRat 1 2 ≤ 1 ∧
    (((overlayResized (fun _ _ _ _ _ => ⟨0, 0, 0, 0⟩)
        { width := 4, height := 4, pix := fun _ _ => ⟨0, 0, 0, 65535⟩ }
        { width := 8, height := 8, pix := fun _ _ => ⟨65535, 65535, 65535, 65535⟩ }
        (mkRat 1 2)).width : ℤ) ≤
      ⌊(({ width := 4, height := 4, pix := fun _ _ => ⟨0, 0, 0, 65535⟩ } : Img).width : ℚ) * mkRat 1 2⌋ ∧
      ((overlayResized (fun _ _ _ _ _ => ⟨0, 0, 0, 0⟩)
        { width := 4, height := 4, pix := fun _ _ => ⟨0, 0, 0, 65535⟩ }
        { width := 8, height := 8, pix := fun _ _ => ⟨65535, 65535, 65535, 65535⟩ }
        (mkRat 1 2)).height : ℤ) ≤
      ⌊(({ width := 4, height := 4, pix := fun _ _ => ⟨0, 0, 0, 65535⟩ } : Img).height : ℚ) * mkRat 1 2⌋ ∧
      (overlayResized (fun _ _ _ _ _ => ⟨0, 0, 0, 0⟩)
        { width := 4, height := 4, pix := fun _ _ => ⟨0, 0, 0, 65535⟩ }
        { width := 8, height := 8, pix := fun _ _ => ⟨65535, 65535, 65535, 65535⟩ }
        (mkRat 1 2)).width * 8 <
      ((overlayResized (fun _ _ _ _ _ => ⟨0, 0, 0, 0⟩)
        { width := 4, height := 4, pix := fun _ _ => ⟨0, 0, 0, 65535⟩ }
        { width := 8, height := 8, pix := fun _ _ => ⟨65535, 65535, 65535, 65535⟩ }
        (mkRat 1 2)).height + 1) * 8 ∧
      (overlayResized (fun _ _ _ _ _ => ⟨0, 0, 0, 0⟩)
        { width := 4, height := 4, pix := fun _ _ => ⟨0, 0, 0, 65535⟩ }
        { width := 8, height := 8, pix := fun _ _ => ⟨65535, 65535, 65535, 65535⟩ }
        (mkRat 1 2)).height * 8 <
      ((overlayResized (fun _ _ _ _ _ => ⟨0, 0, 0, 0⟩)
        { width := 4, height := 4, pix := fun _ _ => ⟨0, 0, 0, 65535⟩ }
        { width := 8, height := 8, pix := fun _ _ => ⟨65535, 65535, 65535, 65535⟩ }
        (mkRat 1 2)).width + 1) * 8) :=
  ⟨by decide, by decide,
    c2_resized_bounds (fun _ _ _ _ _ => ⟨0, 0, 0, 0⟩)
      { width := 4, height := 4, pix := fun _ _ => ⟨0, 0, 0, 65535⟩ }
      { width := 8, height := 8, pix := fun _ _ => ⟨65535, 65535, 65535, 65535⟩ }
      (mkRat 1 2) (by decide) (by decide) (by decide) (by decide)
      (by decide) (by decide)⟩

/-- Dividing an exact 8-bit color expansion by 256 recovers the 8-bit
value. -/
theorem alignedDiv (k : ℕ) (hk : k ≤ 255) : 257 * k / 256 = k := by
  have h : 257 * k = k + k * 256 := by ring
  rw [h, Nat.add_mul_div_right _ _ (by norm_num : 0 < 256),
    Nat.div_eq_of_lt (by omega)]
  omega

/-- The 16-to-8-to-16-bit roundtrip is the identity on exact 8-bit
colors. -/
theorem alignedRoundtrip (r : ℕ) (h1 : r < 65536) (h5 : r % 257 = 0) :
    r / 256 % 256 * 257 = r := by
  obtain ⟨k, hk⟩ : ∃ k, r = 257 * k := ⟨r / 257, by omega⟩
  subst hk
  have hk255 : k ≤ 255 := by omega
  rw [alignedDiv k hk255, Nat.mod_eq_of_lt (by omega)]
  ring

/-- The `RGBA()` view of a Src-copied pixel reproduces the original
pixel exactly when that pixel is an exact 8-bit color. -/
theorem toImg_src_aligned (p : Pixel) (hp : PixAligned p) :
    (rgbaSrc p).r * 257 = p.r ∧ (rgbaSrc p).g * 257 = p.g ∧
    (rgbaSrc p).b * 257 = p.b ∧ (rgbaSrc p).a * 257 = p.a := by
  obtain ⟨h1, h2, h3, h4, h5, h6, h7, h8⟩ := hp
  simp only [rgbaSrc]
  exact ⟨alignedRoundtrip _ h1 h5, alignedRoundtrip _ h2 h6,
    alignedRoundtrip _ h3 h7, alignedRoundtrip _ h4 h8⟩

/-- C3: when the resized overlay fits inside the base, the code's
placement offset is exactly
`((baseWidth - resizedWidth) / 2, (baseHeight - resizedHeight) / 2)`
with floor (here: natural) division, and every output pixel strictly
outside the placed overlay rectangle is bit-identical to the
corresponding base pixel (the base being an exact 8-bit raster). -/
theorem c3_centering (resample : Resample) (qrCode overlay : Img) (f : ℚ)
    (hw : (overlayResized resample qrCode overlay f).width ≤ qrCode.width)
    (hh : (overlayResized resample qrCode overlay f).height ≤ qrCode.height)
    (halign : ∀ x : ℕ, x < qrCode.width → ∀ y : ℕ, y < qrCode.height →
      PixAligned (qrCode.pix x y)) :
    overlayOffset resample qrCode overlay f =
      ((((qrCode.width - (overlayResized resample qrCode overlay f).width) / 2 : ℕ) : ℤ),
       (((qrCode.height - (overlayResized resample qrCode overlay f).height) / 2 : ℕ) : ℤ)) ∧
    ∀ x y : ℕ, x < qrCode.width → y < qrCode.height →
      ((x : ℤ) < (overlayOffset resample qrCode overlay f).1 ∨
        (overlayOffset resample qrCode overlay f).1 +
          (overlayResized resample qrCode overlay f).width ≤ (x : ℤ) ∨
        (y : ℤ) < (overlayOffset resample qrCode overlay f).2 ∨
        (overlayOffset resample qrCode overlay f).2 +
          (overlayResized resample qrCode overlay f).height ≤ (y : ℤ)) →
      (overlayImageOnQRCode resample qrCode overlay f).1.toImg.pix x y =
        qrCode.pix x y := by
  constructor
  · have e1 : (qrCode.width : ℤ) -
        ((overlayResized resample qrCode overlay f).width : ℤ) =
        ((qrCode.width - (overlayResized resample qrCode overlay f).width : ℕ) : ℤ) := by
      omega
    have e2 : (qrCode.height : ℤ) -
        ((overlayResized resample qrCode overlay f).height : ℤ) =
        ((qrCode.height - (overlayResized resample qrCode overlay f).height : ℕ) : ℤ) := by
      omega
    unfold overlayOffset
    rw [e1, e2, Int.tdiv_eq_ediv (by positivity) (by norm_num),
      Int.tdiv_eq_ediv (by positivity) (by norm_num), Prod.mk.injEq]
    constructor <;> omega
  · intro x y hx hy hout
    have hC : ¬ ((overlayOffset resample qrCode overlay f).1 ≤ (x : ℤ) ∧
        (x : ℤ) < (overlayOffset resample qrCode overlay f).1 +
          ((overlayResized resample qrCode overlay f).width : ℤ) ∧
        (overlayOffset resample qrCode overlay f).2 ≤ (y : ℤ) ∧
        (y : ℤ) < (overlayOffset resample qrCode overlay f).2 +
          ((overlayResized resample qrCode overlay f).height : ℤ)) := by
      intro hC
      rcases hout with h | h | h | h <;> omega
    show ((drawComposite qrCode (overlayResized resample qrCode overlay f)
        (overlayOffset resample qrCode overlay f), (none : Option String)).1.toImg).pix x y =
      qrCode.pix x y
    simp only [Img8.toImg]
    rw [drawComposite_outside qrCode (overlayResized resample qrCode overlay f)
      (overlayOffset resample qrCode overlay f) x y hC]
    obtain ⟨e3, e4, e5, e6⟩ := toImg_src_aligned (qrCode.pix x y) (halign x hx y hy)
    rw [e3, e4, e5, e6]

/-- A trivial resampling kernel used to instantiate witnesses. -/
def testResample : Resample :=
  fun _ _ _ _ _ => ⟨0, 0, 0, 0⟩

/-- A concrete 4 × 4 black opaque base raster (exact 8-bit colors). -/
def base4 : Img :=
  ⟨4, 4, fun _ _ => ⟨0, 0, 0, 65535⟩⟩

/-- A concrete 2 × 2 white opaque overlay (exact 8-bit colors). -/
def logo2 : Img :=
  ⟨2, 2, fun _ _ => ⟨65535, 65535, 65535, 65535⟩⟩

unseal Rat.mul in
/-- Witness for C3: the 2 × 2 overlay on the 4 × 4 base at fraction 1/2
is placed at offset (1, 1) and the border pixels stay the base's. -/
theorem c3_centering_witness :
    (overlayResized testResample base4 logo2 (mkRat 1 2)).width ≤ base4.width ∧
    (overlayResized testResample base4 logo2 (mkRat 1 2)).height ≤ base4.height ∧
    (∀ x : ℕ, x < base4.width → ∀ y : ℕ, y < base4.height → PixAligned (base4.pix x y)) ∧
    (overlayOffset testResample base4 logo2 (mkRat 1 2) =
      ((((base4.width - (overlayResized testResample base4 logo2 (mkRat 1 2)).width) / 2 : ℕ) : ℤ),
       (((base4.height - (overlayResized testResample base4 logo2 (mkRat 1 2)).height) / 2 : ℕ) : ℤ)) ∧
      ∀ x y : ℕ, x < base4.width → y < base4.height →
        ((x : ℤ) < (overlayOffset testResample base4 logo2 (mkRat 1 2)).1 ∨
          (overlayOffset testResample base4 logo2 (mkRat 1 2)).1 +
            (overlayResized testResample base4 logo2 (mkRat 1 2)).width ≤ (x : ℤ) ∨
          (y : ℤ) < (overlayOffset testResample base4 logo2 (mkRat 1 2)).2 ∨
          (overlayOffset testResample base4 logo2 (mkRat 1 2)).2 +
            (overlayResized testResample base4 logo2 (mkRat 1 2)).height ≤ (y : ℤ)) →
        (overlayImageOnQRCode testResample base4 logo2 (mkRat 1 2)).1.toImg.pix x y =
          base4.pix x y) :=
  ⟨by decide, by decide, by decide,
    c3_centering testResample base4 logo2 (mkRat 1 2)
      (by decide) (by decide) (by decide)⟩

/-! C4, C5 and C9. -/

/-- The `uint32(float64(...))` conversion is the identity on in-range
naturals. -/
theorem goUint32Q_natCast (n : ℕ) (hn : n < 4294967296) :
    goUint32Q ((n : ℚ)) = n := by
  unfold goUint32Q truncQ
  rw [Rat.num_natCast, Rat.den_natCast, Nat.cast_one, Int.tdiv_one]
  omega

/-- Variant of the 8-bit roundtrip through the explicit `uint16`
truncation. -/
theorem alignedRoundtrip2 (r : ℕ) (h1 : r < 65536) (h5 : r % 257 = 0) :
    r % 65536 / 256 * 257 = r := by
  have h2 := alignedRoundtrip r h1 h5
  rw [Nat.mod_eq_of_lt (show r / 256 < 256 by omega)] at h2
  rw [Nat.mod_eq_of_lt h1]
  exact h2

/-- On an exact 8-bit pixel, `applyOpacity` at opacity 1 reproduces every
channel of the `RGBA()` view exactly. -/
theorem applyOpacity_one_pix (p : Pixel) (hp : PixAligned p) :
    p.r % 65536 / 256 * 257 = p.r ∧
    p.g % 65536 / 256 * 257 = p.g ∧
    p.b % 65536 / 256 * 257 = p.b ∧
    goUint32Q ((p.a : ℚ) * 1) % 65536 / 256 * 257 = p.a := by
  obtain ⟨h1, h2, h3, h4, h5, h6, h7, h8⟩ := hp
  refine ⟨alignedRoundtrip2 _ h1 h5, alignedRoundtrip2 _ h2 h6,
    alignedRoundtrip2 _ h3 h7, ?_⟩
  rw [mul_one, goUint32Q_natCast p.a (by omega)]
  exact alignedRoundtrip2 _ h4 h8

/-- C4 (amended): when every pixel of the resized overlay is an exact
8-bit premultiplied color (as RGBA-stored overlays are),
`overlayImageOnQRCodeWithOpacity` at opacity 1.0 is pixel-identical to
`overlayImageOnQRCode`; for 16-bit sources the `applyOpacity` roundtrip
through 8-bit storage can shift blended pixels (see the
counterexample). -/
theorem c4_amended (resample : Resample) (qrCode overlay : Img) (f : ℚ)
    (halign : ∀ x : ℕ, x < (overlayResized resample qrCode overlay f).width →
      ∀ y : ℕ, y < (overlayResized resample qrCode overlay f).height →
      PixAligned ((overlayResized resample qrCode overlay f).pix x y)) :
    (overlayImageOnQRCodeWithOpacity resample qrCode overlay f 1).1.width =
      (overlayImageOnQRCode resample qrCode overlay f).1.width ∧
    (overlayImageOnQRCodeWithOpacity resample qrCode overlay f 1).1.height =
      (overlayImageOnQRCode resample qrCode overlay f).1.height ∧
    (overlayImageOnQRCodeWithOpacity resample qrCode overlay f 1).2 =
      (overlayImageOnQRCode resample qrCode overlay f).2 ∧
    ∀ x y : ℕ,
      (overlayImageOnQRCodeWithOpacity resample qrCode overlay f 1).1.pix x y =
      (overlayImageOnQRCode resample qrCode overlay f).1.pix x y := by
  refine ⟨rfl, rfl, rfl, ?_⟩
  intro x y
  by_cases hC : (overlayOffset resample qrCode overlay f).1 ≤ (x : ℤ) ∧
      (x : ℤ) < (overlayOffset resample qrCode overlay f).1 +
        ((overlayResized resample qrCode overlay f).width : ℤ) ∧
      (overlayOffset resample qrCode overlay f).2 ≤ (y : ℤ) ∧
      (y : ℤ) < (overlayOffset resample qrCode overlay f).2 +
        ((overlayResized resample qrCode overlay f).height : ℤ)
  · show (drawComposite qrCode
        ((applyOpacity (overlayResized resample qrCode overlay f) 1).toImg)
        (overlayOffset resample qrCode overlay f)).pix x y =
      (drawComposite qrCode (overlayResized resample qrCode overlay f)
        (overlayOffset resample qrCode overlay f)).pix x y
    rw [drawComposite_inside _ _ _ x y (by exact hC),
      drawComposite_inside _ _ _ x y hC]
    congr 1
    have hsx : ((x : ℤ) - (overlayOffset resample qrCode overlay f).1).toNat <
        (overlayResized resample qrCode overlay f).width := by
      omega
    have hsy : ((y : ℤ) - (overlayOffset resample qrCode overlay f).2).toNat <
        (overlayResized resample qrCode overlay f).height := by
      omega
    have hp := halign _ hsx _ hsy
    simp only [Img8.toImg, applyOpacity]
    obtain ⟨e1, e2, e3, e4⟩ := applyOpacity_one_pix _ hp
    rw [e1, e2, e3, e4]
  · show (drawComposite qrCode
        ((applyOpacity (overlayResized resample qrCode overlay f) 1).toImg)
        (overlayOffset resample qrCode overlay f)).pix x y =
      (drawComposite qrCode (overlayResized resample qrCode overlay f)
        (overlayOffset resample qrCode overlay f)).pix x y
    rw [drawComposite_outside _ _ _ x y (by exact hC),
      drawComposite_outside _ _ _ x y hC]

unseal Rat.mul in
/-- C4 counterexample: with a 1 × 1 overlay pixel that is premultiplied
but not an exact 8-bit color — `(20156, 20156, 20156, 25700)`, the
`RGBA()` view of the non-premultiplied 8-bit color `(200, 200, 200, 100)`
a PNG decoder produces — opacity 1.0 quantizes the overlay through 8-bit
storage and the blended pixel differs (78 versus 79 at 8 bits) from the
plain composite, refuting pixel-identity as claimed. -/
theorem c4_counterexample :
    (overlayImageOnQRCodeWithOpacity (fun _ _ _ _ _ => ⟨0, 0, 0, 0⟩)
        ⟨1, 1, fun _ _ => ⟨257, 257, 257, 65535⟩⟩
        ⟨1, 1, fun _ _ => ⟨20156, 20156, 20156, 25700⟩⟩
        1 1).1.pix 0 0 ≠
      (overlayImageOnQRCode (fun _ _ _ _ _ => ⟨0, 0, 0, 0⟩)
        ⟨1, 1, fun _ _ => ⟨257, 257, 257, 65535⟩⟩
        ⟨1, 1, fun _ _ => ⟨20156, 20156, 20156, 25700⟩⟩
        1).1.pix 0 0 := by
  decide

unseal Rat.mul in
/-- Witness for the amended C4 at an exact 8-bit overlay. -/
theorem c4_amended_witness :
    (∀ x : ℕ, x < (overlayResized testResample base4 logo2 1).width →
      ∀ y : ℕ, y < (overlayResized testResample base4 logo2 1).height →
      PixAligned ((overlayResized testResample base4 logo2 1).pix x y)) ∧
    ((overlayImageOnQRCodeWithOpacity testResample base4 logo2 1 1).1.width =
      (overlayImageOnQRCode testResample base4 logo2 1).1.width ∧
    (overlayImageOnQRCodeWithOpacity testResample base4 logo2 1 1).1.height =
      (overlayImageOnQRCode testResample base4 logo2 1).1.height ∧
    (overlayImageOnQRCodeWithOpacity testResample base4 logo2 1 1).2 =
      (overlayImageOnQRCode testResample base4 logo2 1).2 ∧
    ∀ x y : ℕ,
      (overlayImageOnQRCodeWithOpacity testResample base4 logo2 1 1).1.pix x y =
      (overlayImageOnQRCode testResample base4 logo2 1).1.pix x y) :=
  ⟨by decide, c4_amended testResample base4 logo2 1 (by decide)⟩

/-- One channel of an Over blend with a zero source channel and zero
source alpha is the destination channel unchanged. -/
theorem overTransparentChan (v : ℕ) (hv : v < 256) :
    (v * ((65535 - 0) * 257) / 65535 + 0) / 256 % 256 = v := by
  have e1 : v * ((65535 - 0) * 257) = 257 * v * 65535 := by omega
  rw [Nat.add_zero, e1, Nat.mul_div_cancel _ (by norm_num : 0 < 65535)]
  rw [alignedDiv v (by omega), Nat.mod_eq_of_lt hv]

/-- Over-blending a pixel whose premultiplied channels are all zero
leaves the (8-bit) destination pixel unchanged. -/
theorem rgbaOverTransparentMk (r g b a : ℕ) (h1 : r < 256) (h2 : g < 256)
    (h3 : b < 256) (h4 : a < 256) :
    rgbaOver ⟨r, g, b, a⟩ ⟨0, 0, 0, 0⟩ = ⟨r, g, b, a⟩ := by
  simp only [rgbaOver, Pix8.mk.injEq]
  exact ⟨overTransparentChan r h1, overTransparentChan g h2,
    overTransparentChan b h3, overTransparentChan a h4⟩

/-- `rgbaOver` with an all-zero source pixel is the identity on stored
pixels. -/
theorem rgbaOver_transparent (d : Pix8) (h1 : d.r < 256) (h2 : d.g < 256)
    (h3 : d.b < 256) (h4 : d.a < 256) : rgbaOver d ⟨0, 0, 0, 0⟩ = d := by
  obtain ⟨r, g, b, a⟩ := d
  exact rgbaOverTransparentMk r g b a h1 h2 h3 h4

/-- Src-copied pixels have 8-bit channels. -/
theorem rgbaSrc_lt (s : Pixel) : (rgbaSrc s).r < 256 ∧ (rgbaSrc s).g < 256 ∧
    (rgbaSrc s).b < 256 ∧ (rgbaSrc s).a < 256 := by
  simp only [rgbaSrc]
  refine ⟨?_, ?_, ?_, ?_⟩ <;> omega

/-- C5 (amended): opacity 0.0 zeroes every overlay alpha but keeps the
premultiplied color channels; the Over blend then adds those channels to
the base, so the overlay region is unchanged exactly when the resized
overlay's premultiplied color channels quantize to zero at 8 bits (for
example a black or a genuinely premultiplied transparent overlay) — then
the whole output equals the copied base.  A fully transparent overlay
with nonzero color channels does alter the region (see the
counterexample). -/
theorem c5_amended (resample : Resample) (qrCode overlay : Img) (f : ℚ)
    (hcol : ∀ x : ℕ, x < (overlayResized resample qrCode overlay f).width →
      ∀ y : ℕ, y < (overlayResized resample qrCode overlay f).height →
      ((overlayResized resample qrCode overlay f).pix x y).r % 65536 < 256 ∧
      ((overlayResized resample qrCode overlay f).pix x y).g % 65536 < 256 ∧
      ((overlayResized resample qrCode overlay f).pix x y).b % 65536 < 256) :
    ∀ x y : ℕ,
      (overlayImageOnQRCodeWithOpacity resample qrCode overlay f 0).1.pix x y =
        rgbaSrc (qrCode.pix x y) := by
  intro x y
  by_cases hC : (overlayOffset resample qrCode overlay f).1 ≤ (x : ℤ) ∧
      (x : ℤ) < (overlayOffset resample qrCode overlay f).1 +
        ((overlayResized resample qrCode overlay f).width : ℤ) ∧
      (overlayOffset resample qrCode overlay f).2 ≤ (y : ℤ) ∧
      (y : ℤ) < (overlayOffset resample qrCode overlay f).2 +
        ((overlayResized resample qrCode overlay f).height : ℤ)
  · show (drawComposite qrCode
        ((applyOpacity (overlayResized resample qrCode overlay f) 0).toImg)
        (overlayOffset resample qrCode overlay f)).pix x y =
      rgbaSrc (qrCode.pix x y)
    rw [drawComposite_inside _ _ _ x y (by exact hC)]
    have hsx : ((x : ℤ) - (overlayOffset resample qrCode overlay f).1).toNat <
        (overlayResized resample qrCode overlay f).width := by
      omega
    have hsy : ((y : ℤ) - (overlayOffset resample qrCode overlay f).2).toNat <
        (overlayResized resample qrCode overlay f).height := by
      omega
    obtain ⟨m1, m2, m3⟩ := hcol _ hsx _ hsy
    have hz : (applyOpacity (overlayResized resample qrCode overlay f) 0).toImg.pix
        ((x : ℤ) - (overlayOffset resample qrCode overlay f).1).toNat
        ((y : ℤ) - (overlayOffset resample qrCode overlay f).2).toNat =
        ⟨0, 0, 0, 0⟩ := by
      simp only [Img8.toImg, applyOpacity, Pixel.mk.injEq]
      rw [mul_zero]
      refine ⟨by omega, by omega, by omega, ?_⟩
      rw [show goUint32Q 0 = 0 from rfl]
    rw [hz]
    obtain ⟨l1, l2, l3, l4⟩ := rgbaSrc_lt (qrCode.pix x y)
    exact rgbaOver_transparent _ l1 l2 l3 l4
  · exact drawComposite_outside _ _ _ x y (by exact hC)

unseal Rat.mul in
/-- C5 counterexample: a fully opaque white overlay at opacity 0.0 —
alpha becomes 0 but the premultiplied white channels survive and Over
adds them — turns the black base pixel white instead of leaving it
unchanged. -/
theorem c5_counterexample :
    (overlayImageOnQRCodeWithOpacity (fun _ _ _ _ _ => ⟨0, 0, 0, 0⟩)
        ⟨1, 1, fun _ _ => ⟨0, 0, 0, 65535⟩⟩
        ⟨1, 1, fun _ _ => ⟨65535, 65535, 65535, 65535⟩⟩
        1 0).1.toImg.pix 0 0 ≠
      (⟨1, 1, fun _ _ => ⟨0, 0, 0, 65535⟩⟩ : Img).pix 0 0 := by
  decide

/-- A concrete 2 × 2 black opaque overlay (zero premultiplied color). -/
def logoBlack2 : Img :=
  ⟨2, 2, fun _ _ => ⟨0, 0, 0, 65535⟩⟩

unseal Rat.mul in
/-- Witness for the amended C5 at a black opaque overlay. -/
theorem c5_amended_witness :
    (∀ x : ℕ, x < (overlayResized testResample base4 logoBlack2 1).width →
      ∀ y : ℕ, y < (overlayResized testResample base4 logoBlack2 1).height →
      ((overlayResized testResample base4 logoBlack2 1).pix x y).r % 65536 < 256 ∧
      ((overlayResized testResample base4 logoBlack2 1).pix x y).g % 65536 < 256 ∧
      ((overlayResized testResample base4 logoBlack2 1).pix x y).b % 65536 < 256) ∧
    ∀ x y : ℕ,
      (overlayImageOnQRCodeWithOpacity testResample base4 logoBlack2 1 0).1.pix x y =
        rgbaSrc (base4.pix x y) :=
  ⟨by decide, c5_amended testResample base4 logoBlack2 1 (by decide)⟩

/-- C9 (amended): an opacity above 1 is not a no-op in general — the
scaled alpha `uint32(float64(a) * opacity)` is uncapped and the `uint16`
conversion wraps it modulo `2^16` (opacity 1.5 maps a fully opaque
alpha 0xffff to 0x7ffe, i.e. 8-bit 127; see the counterexample); the
output coincides with opacity 1.0 only in degenerate cases such as an
overlay whose resized pixels all have zero alpha, proved here. -/
theorem c9_amended (resample : Resample) (qrCode overlay : Img) (f o : ℚ)
    (ho : 1 < o)
    (hza : ∀ x : ℕ, x < (overlayResized resample qrCode overlay f).width →
      ∀ y : ℕ, y < (overlayResized resample qrCode overlay f).height →
      ((overlayResized resample qrCode overlay f).pix x y).a = 0) :
    ∀ x y : ℕ,
      (overlayImageOnQRCodeWithOpacity resample qrCode overlay f o).1.pix x y =
      (overlayImageOnQRCodeWithOpacity resample qrCode overlay f 1).1.pix x y := by
  intro x y
  by_cases hC : (overlayOffset resample qrCode overlay f).1 ≤ (x : ℤ) ∧
      (x : ℤ) < (overlayOffset resample qrCode overlay f).1 +
        ((overlayResized resample qrCode overlay f).width : ℤ) ∧
      (overlayOffset resample qrCode overlay f).2 ≤ (y : ℤ) ∧
      (y : ℤ) < (overlayOffset resample qrCode overlay f).2 +
        ((overlayResized resample qrCode overlay f).height : ℤ)
  · show (drawComposite qrCode
        ((applyOpacity (overlayResized resample qrCode overlay f) o).toImg)
        (overlayOffset resample qrCode overlay f)).pix x y =
      (drawComposite qrCode
        ((applyOpacity (overlayResized resample qrCode overlay f) 1).toImg)
        (overlayOffset resample qrCode overlay f)).pix x y
    rw [drawComposite_inside _ _ _ x y (by exact hC),
      drawComposite_inside _ _ _ x y (by exact hC)]
    apply congrArg (rgbaOver (rgbaSrc (qrCode.pix x y)))
    have hsx : ((x : ℤ) - (overlayOffset resample qrCode overlay f).1).toNat <
        (overlayResized resample qrCode overlay f).width := by
      omega
    have hsy : ((y : ℤ) - (overlayOffset resample qrCode overlay f).2).toNat <
        (overlayResized resample qrCode overlay f).height := by
      omega
    have ha := hza _ hsx _ hsy
    simp only [Img8.toImg, applyOpacity]
    rw [ha, Nat.cast_zero, zero_mul, mul_one]
  · show (drawComposite qrCode
        ((applyOpacity (overlayResized resample qrCode overlay f) o).toImg)
        (overlayOffset resample qrCode overlay f)).pix x y =
      (drawComposite qrCode
        ((applyOpacity (overlayResized resample qrCode overlay f) 1).toImg)
        (overlayOffset resample qrCode overlay f)).pix x y
    rw [drawComposite_outside _ _ _ x y (by exact hC),
      drawComposite_outside _ _ _ x y (by exact hC)]

unseal Rat.mul in
/-- C9 counterexample: a fully opaque black 1 × 1 overlay on a white
base at opacity 1.5 — the scaled alpha `⌊65535 * 1.5⌋ = 98302` wraps to
32766 in the `uint16` conversion, making the overlay half transparent —
yields a gray region pixel, while opacity 1.0 yields black. -/
theorem c9_counterexample :
    (overlayImageOnQRCodeWithOpacity (fun _ _ _ _ _ => ⟨0, 0, 0, 0⟩)
        ⟨1, 1, fun _ _ => ⟨65535, 65535, 65535, 65535⟩⟩
        ⟨1, 1, fun _ _ => ⟨0, 0, 0, 65535⟩⟩
        1 (mkRat 3 2)).1.pix 0 0 ≠
      (overlayImageOnQRCodeWithOpacity (fun _ _ _ _ _ => ⟨0, 0, 0, 0⟩)
        ⟨1, 1, fun _ _ => ⟨65535, 65535, 65535, 65535⟩⟩
        ⟨1, 1, fun _ _ => ⟨0, 0, 0, 65535⟩⟩
        1 1).1.pix 0 0 := by
  decide

/-- A concrete 2 × 2 overlay whose pixels all have zero alpha. -/
def logoGhost2 : Img :=
  ⟨2, 2, fun _ _ => ⟨0, 0, 0, 0⟩⟩

unseal Rat.mul in
/-- Witness for the amended C9 at opacity 2 and a zero-alpha overlay. -/
theorem c9_amended_witness :
    (1 : ℚ) < 2 ∧
    (∀ x : ℕ, x < (overlayResized testResample base4 logoGhost2 1).width →
      ∀ y : ℕ, y < (overlayResized testResample base4 logoGhost2 1).height →
      ((overlayResized testResample base4 logoGhost2 1).pix x y).a = 0) ∧
    ∀ x y : ℕ,
      (overlayImageOnQRCodeWithOpacity testResample base4 logoGhost2 1 2).1.pix x y =
      (overlayImageOnQRCodeWithOpacity testResample base4 logoGhost2 1 1).1.pix x y :=
  ⟨by decide, by decide,
    c9_amended testResample base4 logoGhost2 1 2 (by decide) (by decide)⟩

/-! C6. -/

/-- C6 (amended): `applyOpacity` keeps the image's dimensions; on exact
8-bit pixels with opacity in `[0, 1]` the color channels are unchanged
(through the 8-bit store), and the stored alpha is `⌊a16 * o⌋ >> 8`,
which lies within one 8-bit step above `⌊a8 * o⌋` — not exactly
`alpha * opacity`, because the computation truncates at 16 and then at
8 bits (see the counterexample for a 16-bit pixel changed by
opacity 1). -/
theorem c6_amended (img : Img) (o : ℚ) (ho0 : 0 ≤ o) (ho1 : o ≤ 1) :
    (applyOpacity img o).width = img.width ∧
    (applyOpacity img o).height = img.height ∧
    ∀ x y : ℕ, PixAligned (img.pix x y) →
      ((applyOpacity img o).pix x y).r * 257 = (img.pix x y).r ∧
      ((applyOpacity img o).pix x y).g * 257 = (img.pix x y).g ∧
      ((applyOpacity img o).pix x y).b * 257 = (img.pix x y).b ∧
      ⌊(((img.pix x y).a / 257 : ℕ) : ℚ) * o⌋.toNat ≤
        ((applyOpacity img o).pix x y).a ∧
      ((applyOpacity img o).pix x y).a ≤
        ⌊(((img.pix x y).a / 257 : ℕ) : ℚ) * o⌋.toNat + 1 := by
  refine ⟨rfl, rfl, ?_⟩
  intro x y hp
  obtain ⟨h1, h2, h3, h4, h5, h6, h7, h8⟩ := hp
  simp only [applyOpacity]
  refine ⟨alignedRoundtrip2 _ h1 h5, alignedRoundtrip2 _ h2 h6,
    alignedRoundtrip2 _ h3 h7, ?_, ?_⟩ <;>
  · set a := (img.pix x y).a with ha_def
    set k8 := a / 257 with hk8def
    have hdvd : a = 257 * k8 := by omega
    have hk8le : k8 ≤ 255 := by omega
    have hcast : (a : ℚ) = 257 * (k8 : ℚ) := by
      rw [hdvd]
      push_cast
      ring
    set x0 : ℚ := (k8 : ℚ) * o with hx0def
    have hx00 : 0 ≤ x0 := mul_nonneg (by positivity) ho0
    have hx0255 : x0 ≤ 255 := by
      have hb : (k8 : ℚ) * o ≤ (k8 : ℚ) * 1 :=
        mul_le_mul_of_nonneg_left ho1 (by positivity)
      have hc : ((k8 : ℕ) : ℚ) ≤ 255 := by exact_mod_cast hk8le
      rw [hx0def]
      calc (k8 : ℚ) * o ≤ (k8 : ℚ) * 1 := hb
      _ = (k8 : ℚ) := mul_one _
      _ ≤ 255 := hc
    have hprod : (a : ℚ) * o = 257 * x0 := by
      rw [hcast, hx0def]
      ring
    have h2570 : (0 : ℚ) ≤ 257 * x0 := by positivity
    set t : ℤ := ⌊(257 : ℚ) * x0⌋ with htdef
    have ht0 : 0 ≤ t := Int.floor_nonneg.mpr h2570
    have ht65535 : t ≤ 65535 := by
      have hle : (257 : ℚ) * x0 ≤ 65535 := by linarith
      have hcl : t ≤ ⌊(65535 : ℚ)⌋ := Int.floor_le_floor hle
      have he : ⌊(65535 : ℚ)⌋ = 65535 := by norm_num
      omega
    have hg : goUint32Q ((a : ℚ) * o) = t.toNat := by
      unfold goUint32Q
      rw [hprod, truncQ_eq_floor h2570, ← htdef,
        Int.emod_eq_of_lt ht0 (by omega)]
    rw [hg, Nat.mod_eq_of_lt (show t.toNat < 65536 by omega)]
    set kf : ℤ := ⌊x0⌋ with hkfdef
    have hkf0 : 0 ≤ kf := Int.floor_nonneg.mpr hx00
    have hlow : 256 * kf ≤ t := by
      rw [htdef]
      apply Int.le_floor.mpr
      push_cast
      have h9 : (kf : ℚ) ≤ x0 := Int.floor_le x0
      linarith
    have hup : t < 256 * (kf + 2) := by
      rw [htdef]
      apply Int.floor_lt.mpr
      push_cast
      have h11 : x0 < (kf : ℚ) + 1 := Int.lt_floor_add_one x0
      linarith
    omega

unseal Rat.mul in
/-- C6 counterexample: on the 16-bit pixel `(30000, 30000, 30000, 30000)`
`applyOpacity` at opacity 1 changes the pixel — the channels are
quantized to 8 bits (30000 becomes 117 * 257 = 30069) — refuting
"alpha equals alpha times opacity and the other channels are
unchanged" as an exact statement. -/
theorem c6_counterexample :
    (applyOpacity (⟨1, 1, fun _ _ => ⟨30000, 30000, 30000, 30000⟩⟩ : Img)
        1).toImg.pix 0 0 ≠
      (⟨1, 1, fun _ _ => ⟨30000, 30000, 30000, 30000⟩⟩ : Img).pix 0 0 := by
  decide

/-- A concrete 1 × 1 half-transparent gray image (exact 8-bit pixel). -/
def gray1 : Img :=
  ⟨1, 1, fun _ _ => ⟨25700, 25700, 25700, 25700⟩⟩

unseal Rat.mul in
/-- Witness for the amended C6 at opacity 1/2 on an exact 8-bit pixel. -/
theorem c6_amended_witness :
    (0 : ℚ) ≤ mkRat 1 2 ∧ mkRat 1 2 ≤ 1 ∧
    ((applyOpacity gray1 (mkRat 1 2)).width = gray1.width ∧
    (applyOpacity gray1 (mkRat 1 2)).height = gray1.height ∧
    ∀ x y : ℕ, PixAligned (gray1.pix x y) →
      ((applyOpacity gray1 (mkRat 1 2)).pix x y).r * 257 = (gray1.pix x y).r ∧
      ((applyOpacity gray1 (mkRat 1 2)).pix x y).g * 257 = (gray1.pix x y).g ∧
      ((applyOpacity gray1 (mkRat 1 2)).pix x y).b * 257 = (gray1.pix x y).b ∧
      ⌊(((gray1.pix x y).a / 257 : ℕ) : ℚ) * mkRat 1 2⌋.toNat ≤
        ((applyOpacity gray1 (mkRat 1 2)).pix x y).a ∧
      ((applyOpacity gray1 (mkRat 1 2)).pix x y).a ≤
        ⌊(((gray1.pix x y).a / 257 : ℕ) : ℚ) * mkRat 1 2⌋.toNat + 1) :=
  ⟨by decide, by decide, c6_amended gray1 (mkRat 1 2) (by decide) (by decide)⟩
